import Mathlib

/-!
Shallow embedding of the woosh audio engine's DSP and waveform-geometry core:
`src/utils/DSP.cpp`, `src/ui/WaveformViewHelpers.cpp` and
`WaveformView::computeWaveformCache` in `src/ui/WaveformView.cpp`.

Modelling conventions:
* `float`/`double` sample and gain arithmetic is modelled exactly: over `ℚ`
  where the source only uses field operations (fade curves, waveform min/max),
  and over `ℝ` where the source uses `pow`/`log10`/`exp` (meters, normalizer,
  compressor).  The IEEE value `-inf` returned by the meters on an empty
  buffer is modelled with `EReal`'s `⊥`.
* `size_t` becomes `ℕ`; `int` becomes `ℤ`; the C casts
  `static_cast<int>(double)` (truncation toward zero) and
  `static_cast<size_t>(int)` (reduction mod 2^64) are modelled explicitly.
* The parallel execution paths (`std::execution::par_unseq`) compute the same
  reductions as the sequential branches and are modelled by the single
  sequential fold.
* In-place mutation of `std::vector<float>&` becomes a function returning the
  new sample list.
-/

namespace Woosh

/-! ### Trim/fade region resolver — `WaveformViewHelpers.cpp` -/

/-- Mirrors `struct TrimAndFadeRanges` (all `std::size_t` fields). -/
structure TrimAndFadeRanges where
  visibleStartFrame : Nat
  visibleEndFrame : Nat
  fadeInStartFrame : Nat
  fadeInEndFrame : Nat
  fadeOutStartFrame : Nat
  fadeOutEndFrame : Nat
deriving Repr, DecidableEq

/-- The all-zero `TrimAndFadeRanges{}` value the C++ function starts from. -/
def TrimAndFadeRanges.zero : TrimAndFadeRanges := ⟨0, 0, 0, 0, 0, 0⟩

/-- Mirrors `effectiveTrimEnd`: `trimEnd > 0 ? min(trimEnd, frameCount) : frameCount`,
then floored at 1. -/
def effTrimEnd (clipFrameCount trimEndFrame : Nat) : Nat :=
  max (if trimEndFrame > 0 then min trimEndFrame clipFrameCount else clipFrameCount) 1

/-- Mirrors `effectiveTrimStart = min(trimStart, effectiveTrimEnd - 1)`. -/
def effTrimStart (clipFrameCount trimStartFrame trimEndFrame : Nat) : Nat :=
  min trimStartFrame (effTrimEnd clipFrameCount trimEndFrame - 1)

/-- Embedding of `computeTrimAndFadeRanges` (`WaveformViewHelpers.cpp`). -/
def computeTrimAndFadeRanges (clipFrameCount trimStartFrame trimEndFrame : Nat)
    (showFullExtent : Bool) (fadeInLengthFrames fadeOutLengthFrames : Nat) :
    TrimAndFadeRanges :=
  if clipFrameCount = 0 then TrimAndFadeRanges.zero
  else
    let effectiveTrimEnd := effTrimEnd clipFrameCount trimEndFrame
    let effectiveTrimStart := effTrimStart clipFrameCount trimStartFrame trimEndFrame
    let visibleStart := if showFullExtent then 0 else effectiveTrimStart
    let visibleEnd := if showFullExtent then clipFrameCount else effectiveTrimEnd
    let activeStart := effectiveTrimStart
    let activeEnd := effectiveTrimEnd
    let activeLength := if activeEnd > activeStart then activeEnd - activeStart else 0
    if activeLength = 0 then
      { TrimAndFadeRanges.zero with
          visibleStartFrame := visibleStart, visibleEndFrame := visibleEnd }
    else
      let maxFadeEach := activeLength / 2
      let clampedFadeIn := min fadeInLengthFrames maxFadeEach
      let clampedFadeOut := min fadeOutLengthFrames maxFadeEach
      { visibleStartFrame := visibleStart
        visibleEndFrame := visibleEnd
        fadeInStartFrame := activeStart
        fadeInEndFrame := activeStart + clampedFadeIn
        fadeOutStartFrame := if activeEnd > clampedFadeOut then activeEnd - clampedFadeOut
          else activeStart
        fadeOutEndFrame := activeEnd }

/-! ### Fade curves — `computeFadeGain`, `applyFadeIn`, `applyFadeOut` (`DSP.cpp`) -/

/-- Mirrors `enum class DSP::FadeType`. -/
inductive FadeType where
  | Linear
  | Exponential
  | SCurve
deriving Repr, DecidableEq

/-- Mirrors `std::clamp(v, lo, hi)`: `v < lo ? lo : hi < v ? hi : v`. -/
def stdClamp {α : Type} [LinearOrder α] (v lo hi : α) : α :=
  if v < lo then lo else if hi < v then hi else v

/-- The `switch (fadeType)` curve shape of `computeFadeGain`. -/
def curveGain (fadeType : FadeType) (t : ℚ) : ℚ :=
  match fadeType with
  | .Linear => t
  | .Exponential => t * t
  | .SCurve => t * t * (3 - 2 * t)

/-- Embedding of the file-local `computeFadeGain(position, fadeLength, fadeType, isFadeIn)`. -/
def computeFadeGain (position fadeLength : Nat) (fadeType : FadeType)
    (isFadeIn : Bool) : ℚ :=
  if fadeLength = 0 then 1
  else
    let t := stdClamp ((position : ℚ) / (fadeLength : ℚ)) 0 1
    let gain := curveGain fadeType t
    if isFadeIn then gain else 1 - gain

/-- The fade-in loop body: walks the list carrying the running index `i`,
multiplying the first `actualFadeLength` samples by the fade-in gain. -/
def fadeInGo (actualFadeLength : Nat) (fadeType : FadeType) :
    Nat → List ℚ → List ℚ
  | _, [] => []
  | i, s :: rest =>
      (if i < actualFadeLength then
        s * computeFadeGain i actualFadeLength fadeType true else s)
        :: fadeInGo actualFadeLength fadeType (i + 1) rest

/-- The fade-out loop body: samples at index `fadeStart + j` are multiplied by
the fade-out gain at position `j`; earlier samples are untouched. -/
def fadeOutGo (actualFadeLength fadeStart : Nat) (fadeType : FadeType) :
    Nat → List ℚ → List ℚ
  | _, [] => []
  | i, s :: rest =>
      (if fadeStart ≤ i then
        s * computeFadeGain (i - fadeStart) actualFadeLength fadeType false else s)
        :: fadeOutGo actualFadeLength fadeStart fadeType (i + 1) rest

/-- Embedding of `DSP::applyFadeIn`. -/
def applyFadeIn (samples : List ℚ) (fadeLengthSamples : Nat) (fadeType : FadeType) :
    List ℚ :=
  if samples = [] ∨ fadeLengthSamples = 0 then samples
  else fadeInGo (min fadeLengthSamples samples.length) fadeType 0 samples

/-- Embedding of `DSP::applyFadeOut`. -/
def applyFadeOut (samples : List ℚ) (fadeLengthSamples : Nat) (fadeType : FadeType) :
    List ℚ :=
  if samples = [] ∨ fadeLengthSamples = 0 then samples
  else
    let actualFadeLength := min fadeLengthSamples samples.length
    fadeOutGo actualFadeLength (samples.length - actualFadeLength) fadeType 0 samples

/-! ### Waveform decimator — `WaveformView::computeWaveformCache` (`WaveformView.cpp`) -/

/-- Mirrors C `static_cast<int>` applied to a `double` value: truncation
toward zero (for `q ≥ 0` this is the floor of `q`, computed on the reduced
numerator and denominator; for `q < 0` the magnitude is truncated and the
sign restored). -/
def castCInt (q : ℚ) : ℤ :=
  if 0 ≤ q then q.num / (q.den : ℤ) else -((-q.num) / (q.den : ℤ))

/-- Mirrors C `static_cast<size_t>` applied to an `int` value: reduction
modulo 2^64. -/
def castSizeT (z : ℤ) : Nat :=
  (z % (2 ^ 64 : ℤ)).toNat

/-- Mirrors `AudioClip::frameCount()`: `channels == 0 ? 0 : samples.size() / channels`
(`Nat` division already returns 0 for a zero divisor). -/
def clipFrameCount (sampleCount channels : Nat) : Nat :=
  sampleCount / channels

/-- The clamped `[startFrame, endFrame)` source range of column `x`:
`startFrame = clamp(scroll + int(x*spp), 0, frameCount-1)`,
`endFrame = clamp(scroll + int((x+1)*spp), startFrame+1, frameCount)`. -/
def columnBounds (scrollOffsetFrames : ℤ) (samplesPerPixel : ℚ) (frameCount : Nat)
    (x : Nat) : ℤ × ℤ :=
  let startFrame0 := scrollOffsetFrames + castCInt ((x : ℚ) * samplesPerPixel)
  let endFrame0 := scrollOffsetFrames + castCInt (((x : ℚ) + 1) * samplesPerPixel)
  let startFrame := stdClamp startFrame0 0 ((frameCount : ℤ) - 1)
  let endFrame := stdClamp endFrame0 (startFrame + 1) (frameCount : ℤ)
  (startFrame, endFrame)

/-- The list of frame indices `startFrame, startFrame+1, …, endFrame-1` the
per-column loop `for (int f = startFrame; f < endFrame; ++f)` visits. -/
def frameIndices (startFrame endFrame : ℤ) : List ℤ :=
  (List.range (endFrame - startFrame).toNat).map (fun (j : ℕ) => startFrame + (j : ℤ))

/-- The per-column inner loop: fold the running `(minVal, maxVal)` pair over the
frame indices, reading `samples[f * channels + ch]` only when the `size_t`
index is in bounds. -/
def minMaxFold (samples : List ℚ) (channels ch : Nat) :
    List ℤ → ℚ × ℚ → ℚ × ℚ
  | [], acc => acc
  | f :: fs, (mn, mx) =>
      let idx := castSizeT (f * (channels : ℤ) + (ch : ℤ))
      if h : idx < samples.length then
        minMaxFold samples channels ch fs
          (min mn (samples.get ⟨idx, h⟩), max mx (samples.get ⟨idx, h⟩))
      else
        minMaxFold samples channels ch fs (mn, mx)

/-- The `{minVal, maxVal}` cache entry for channel `ch`, column `x`:
both accumulators start at `0.0f`. -/
def columnEntry (samples : List ℚ) (channels : Nat) (scrollOffsetFrames : ℤ)
    (samplesPerPixel : ℚ) (ch x : Nat) : ℚ × ℚ :=
  let b := columnBounds scrollOffsetFrames samplesPerPixel
    (clipFrameCount samples.length channels) x
  minMaxFold samples channels ch (frameIndices b.1 b.2) (0, 0)

/-- Embedding of `WaveformView::computeWaveformCache`: one row per channel,
one `(minVal, maxVal)` entry per column.  The parallel branch computes each
column independently with the same per-column loop as the sequential branch,
so both are modelled by the same expression. -/
def computeWaveformCache (samples : List ℚ) (channels : Nat)
    (scrollOffsetFrames : ℤ) (samplesPerPixel : ℚ) (widgetWidth : Nat) :
    List (List (ℚ × ℚ)) :=
  if samples = [] then []
  else
    (List.range channels).map (fun ch =>
      (List.range widgetWidth).map (fun x =>
        columnEntry samples channels scrollOffsetFrames samplesPerPixel ch x))

/-! ### Compressor frame-loop index accesses — `DSP::compressor` (`DSP.cpp`) -/

/-- Indices `i + c` accessed by the tail of the compressor frame loop starting
at outer index `i`: `for (i; i < n; i += channels) for (c = 0; c < channels)`.
The `channels = 0` guard is unreachable through `compressor`, whose
precondition check returns before the loop when `channels ≤ 0`. -/
def accessGo (n channels i : Nat) : List Nat :=
  if channels = 0 then []
  else if i < n then
    (List.range channels).map (fun c => i + c) ++ accessGo n channels (i + channels)
  else []
termination_by n - i
decreasing_by omega

/-- All buffer indices `samples[i + c]` read and written by the compressor's
frame loop over a buffer of length `n`. -/
def compressorAccessedIndices (n channels : Nat) : List Nat :=
  accessGo n channels 0

/-! ### Level meters, normalizer and compressor — `DSP.cpp`, real-valued part

The float constants and transcendental functions are modelled exactly over
`ℝ`; the IEEE `-inf` the meters return for an empty buffer is `EReal`'s `⊥`.
-/

noncomputable section

/-- Mirrors the file-local `kEpsilon = 1e-9f`. -/
def kEpsilon : ℝ := 1 / 10 ^ 9

/-- Mirrors the file-local `dbToLinear(db) = pow(10, db / 20)`. -/
def dbToLinear (db : ℝ) : ℝ := (10 : ℝ) ^ (db / 20)

/-- Mirrors the file-local `linearToDb(lin) = 20 * log10(max(lin, kEpsilon))`. -/
def linearToDb (lin : ℝ) : ℝ := 20 * Real.logb 10 (max lin kEpsilon)

/-- Extension of `dbToLinear` to the IEEE infinities: `pow(10, -inf) = 0` and
`pow(10, +inf) = +inf`. -/
def dbToLinearE (db : EReal) : EReal :=
  if db = ⊥ then 0 else if db = ⊤ then ⊤ else ((dbToLinear db.toReal : ℝ) : EReal)

/-- The peak magnitude scan of `computePeakDbFS`: `peak = max(peak, |s|)`
starting from `0.0f` (the parallel branch computes the same reduction). -/
def peakLin (samples : List ℝ) : ℝ :=
  samples.foldl (fun peak s => max peak |s|) 0

/-- The squared-sum scan of `computeRMSDb` (the parallel branch computes the
same reduction). -/
def sumSq (samples : List ℝ) : ℝ :=
  samples.foldl (fun acc s => acc + s * s) 0

/-- Embedding of `DSP::computePeakDbFS`: `-inf` (`⊥`) on an empty buffer,
otherwise `linearToDb` of the peak magnitude. -/
def computePeakDbFS (samples : List ℝ) : EReal :=
  if samples = [] then ⊥
  else ((linearToDb (peakLin samples) : ℝ) : EReal)

/-- Embedding of `DSP::computeRMSDb`: `-inf` (`⊥`) on an empty buffer,
otherwise `linearToDb` of `sqrt(sumSq / size)`. -/
def computeRMSDb (samples : List ℝ) : EReal :=
  if samples = [] then ⊥
  else ((linearToDb (Real.sqrt (sumSq samples / samples.length)) : ℝ) : EReal)

/-- The gain multiplier `dbToLinear(targetDbFS - computePeakDbFS(samples))`
computed by `DSP::normalizeToPeak` (as an `EReal`: on an empty buffer the C++
float value is `pow(10, +inf) = +inf`). -/
def normalizePeakGain (samples : List ℝ) (targetDbFS : ℝ) : EReal :=
  dbToLinearE ((targetDbFS : EReal) - computePeakDbFS samples)

/-- The gain multiplier computed by `DSP::normalizeToRMS`. -/
def normalizeRmsGain (samples : List ℝ) (targetDb : ℝ) : EReal :=
  dbToLinearE ((targetDb : EReal) - computeRMSDb samples)

/-- Embedding of `DSP::normalizeToPeak`: every sample is multiplied by the
gain in place.  The gain is infinite only when the buffer is empty, in which
case the loop body never runs, so projecting the gain to `ℝ` with `toReal`
is exact on every sample actually scaled. -/
def normalizeToPeak (samples : List ℝ) (targetDbFS : ℝ) : List ℝ :=
  samples.map (fun s => s * (normalizePeakGain samples targetDbFS).toReal)

/-- Embedding of `DSP::normalizeToRMS`. -/
def normalizeToRMS (samples : List ℝ) (targetDb : ℝ) : List ℝ :=
  samples.map (fun s => s * (normalizeRmsGain samples targetDb).toReal)

/-- Mirrors the envelope coefficients `exp(-1 / (0.001 * ms * sampleRate))`
of `DSP::compressor`. -/
def envCoeff (ms : ℝ) (sampleRate : ℤ) : ℝ :=
  Real.exp (-1 / ((1 / 1000) * ms * (sampleRate : ℝ)))

/-- Mirrors the compressor's per-frame peak: `max(|sample|)` across the
frame's channels, starting at `0.0f`. -/
def framePeak (frame : List ℝ) : ℝ :=
  frame.foldl (fun acc s => max acc |s|) 0

/-- Mirrors the envelope update:
`env = framePeak > env ? attack * (env - framePeak) + framePeak : release * (env - framePeak) + framePeak`. -/
def envStep (attackCoeff releaseCoeff env peak : ℝ) : ℝ :=
  if peak > env then attackCoeff * (env - peak) + peak
  else releaseCoeff * (env - peak) + peak

/-- Mirrors the per-frame gain computation in dB: `0` when the envelope is at
or below the linear threshold (i.e. `gain = 1`), otherwise
`-(overDb - overDb / ratio)` with `overDb = linearToDb(env) - thresholdDb`. -/
def compGainDb (thresholdDb ratio env : ℝ) : ℝ :=
  if env > dbToLinear thresholdDb then
    -((linearToDb env - thresholdDb) - (linearToDb env - thresholdDb) / ratio)
  else 0

/-- Splits the interleaved buffer into the groups of `channels` consecutive
samples the frame loop `for (i = 0; i < size; i += channels)` walks.  When the
buffer length is not a multiple of `channels` the C++ loop reads past the end
of the buffer (see the access-bounds development); the final short group here
models that last iteration restricted to the samples that exist.  The
`channels = 0` case is unreachable through `compressor`. -/
def chunkFrames {α : Type} (channels : Nat) : List α → List (List α)
  | [] => []
  | s :: rest =>
      if channels = 0 then []
      else (s :: rest).take channels :: chunkFrames channels ((s :: rest).drop channels)
termination_by l => l.length
decreasing_by simp; omega

/-- The envelope value after each frame of the compressor loop, starting from
`env = 0` at the first frame. -/
def compressorEnvs (attackCoeff releaseCoeff env : ℝ) : List (List ℝ) → List ℝ
  | [] => []
  | frame :: rest =>
      let e := envStep attackCoeff releaseCoeff env (framePeak frame)
      e :: compressorEnvs attackCoeff releaseCoeff e rest

/-- The compressor frame loop: per frame, update the envelope, compute the
gain, and scale every sample of the frame by `gain * makeupLin`. -/
def compressorFramesOut (thresholdDb ratio makeupLin attackCoeff releaseCoeff env : ℝ) :
    List (List ℝ) → List (List ℝ)
  | [] => []
  | frame :: rest =>
      let e := envStep attackCoeff releaseCoeff env (framePeak frame)
      let gain := dbToLinear (compGainDb thresholdDb ratio e)
      frame.map (fun s => s * (gain * makeupLin))
        :: compressorFramesOut thresholdDb ratio makeupLin attackCoeff releaseCoeff e rest

/-- Embedding of `DSP::compressor`.  `if (sampleRate <= 0 || channels <= 0) return;`
is the leading guard; otherwise the frame loop runs with `env = 0`. -/
def compressor (samples : List ℝ) (thresholdDb ratio attackMs releaseMs makeupDb : ℝ)
    (sampleRate channels : ℤ) : List ℝ :=
  if sampleRate ≤ 0 ∨ channels ≤ 0 then samples
  else
    (compressorFramesOut thresholdDb ratio (dbToLinear makeupDb)
      (envCoeff attackMs sampleRate) (envCoeff releaseMs sampleRate) 0
      (chunkFrames channels.toNat samples)).flatten

/-- The per-frame gain in dB the compressor computes for each frame of the
buffer (empty when the parameter guard fires and no frame is processed). -/
def compressorGainDbs (samples : List ℝ) (thresholdDb ratio attackMs releaseMs : ℝ)
    (sampleRate channels : ℤ) : List ℝ :=
  if sampleRate ≤ 0 ∨ channels ≤ 0 then []
  else
    (compressorEnvs (envCoeff attackMs sampleRate) (envCoeff releaseMs sampleRate) 0
      (chunkFrames channels.toNat samples)).map (compGainDb thresholdDb ratio)

/-- The per-frame gain reduction in dB (the amount of attenuation,
`-gainDb ≥ 0`) the compressor applies at each frame. -/
def compressorGainReductions (samples : List ℝ)
    (thresholdDb ratio attackMs releaseMs : ℝ) (sampleRate channels : ℤ) : List ℝ :=
  (compressorGainDbs samples thresholdDb ratio attackMs releaseMs sampleRate channels).map
    (fun g => -g)

end

/-! ## Lemmas and claim theorems -/

theorem effTrimEnd_pos (fc te : Nat) : 1 ≤ effTrimEnd fc te := by
  unfold effTrimEnd
  omega

theorem effTrimEnd_le (fc te : Nat) (h : 1 ≤ fc) : effTrimEnd fc te ≤ fc := by
  unfold effTrimEnd
  split <;> omega

theorem effTrimStart_lt (fc ts te : Nat) :
    effTrimStart fc ts te < effTrimEnd fc te := by
  have h := effTrimEnd_pos fc te
  unfold effTrimStart
  omega

theorem computeTrimAndFadeRanges_eq (fc ts te : Nat) (sf : Bool) (fi fo : Nat)
    (h0 : fc ≠ 0) :
    computeTrimAndFadeRanges fc ts te sf fi fo =
      { visibleStartFrame := if sf then 0 else effTrimStart fc ts te
        visibleEndFrame := if sf then fc else effTrimEnd fc te
        fadeInStartFrame := effTrimStart fc ts te
        fadeInEndFrame := effTrimStart fc ts te +
          min fi ((effTrimEnd fc te - effTrimStart fc ts te) / 2)
        fadeOutStartFrame :=
          if min fo ((effTrimEnd fc te - effTrimStart fc ts te) / 2) < effTrimEnd fc te
          then effTrimEnd fc te - min fo ((effTrimEnd fc te - effTrimStart fc ts te) / 2)
          else effTrimStart fc ts te
        fadeOutEndFrame := effTrimEnd fc te } := by
  have hlt := effTrimStart_lt fc ts te
  unfold computeTrimAndFadeRanges
  rw [if_neg h0]
  simp only [gt_iff_lt, if_pos hlt]
  rw [if_neg (by omega : ¬ (effTrimEnd fc te - effTrimStart fc ts te = 0))]

/-- Claim C5: for every input, the ranges returned by `computeTrimAndFadeRanges`
satisfy: all six frame indices lie within `[0, frameCount]`;
`visibleStart ≤ visibleEnd ≤ frameCount`; both fade sub-ranges lie within the
active (trimmed) region `[effTrimStart, effTrimEnd)` with each fade length
capped at half the active length, and the fade-in range ends no later than the
fade-out range starts (so they never overlap beyond the midpoint); and
`frameCount = 0` yields the all-zero degenerate result. -/
theorem claim5_trim_fade_invariants (fc ts te : Nat) (sf : Bool) (fi fo : Nat) :
    (computeTrimAndFadeRanges fc ts te sf fi fo).visibleStartFrame ≤
      (computeTrimAndFadeRanges fc ts te sf fi fo).visibleEndFrame ∧
    (computeTrimAndFadeRanges fc ts te sf fi fo).visibleEndFrame ≤ fc ∧
    (computeTrimAndFadeRanges fc ts te sf fi fo).fadeInStartFrame ≤ fc ∧
    (computeTrimAndFadeRanges fc ts te sf fi fo).fadeInEndFrame ≤ fc ∧
    (computeTrimAndFadeRanges fc ts te sf fi fo).fadeOutStartFrame ≤ fc ∧
    (computeTrimAndFadeRanges fc ts te sf fi fo).fadeOutEndFrame ≤ fc ∧
    (fc ≠ 0 →
      effTrimStart fc ts te ≤ (computeTrimAndFadeRanges fc ts te sf fi fo).fadeInStartFrame ∧
      (computeTrimAndFadeRanges fc ts te sf fi fo).fadeInStartFrame ≤
        (computeTrimAndFadeRanges fc ts te sf fi fo).fadeInEndFrame ∧
      (computeTrimAndFadeRanges fc ts te sf fi fo).fadeInEndFrame ≤ effTrimEnd fc te ∧
      effTrimStart fc ts te ≤ (computeTrimAndFadeRanges fc ts te sf fi fo).fadeOutStartFrame ∧
      (computeTrimAndFadeRanges fc ts te sf fi fo).fadeOutStartFrame ≤
        (computeTrimAndFadeRanges fc ts te sf fi fo).fadeOutEndFrame ∧
      (computeTrimAndFadeRanges fc ts te sf fi fo).fadeOutEndFrame ≤ effTrimEnd fc te ∧
      (computeTrimAndFadeRanges fc ts te sf fi fo).fadeInEndFrame -
          (computeTrimAndFadeRanges fc ts te sf fi fo).fadeInStartFrame ≤
        (effTrimEnd fc te - effTrimStart fc ts te) / 2 ∧
      (computeTrimAndFadeRanges fc ts te sf fi fo).fadeOutEndFrame -
          (computeTrimAndFadeRanges fc ts te sf fi fo).fadeOutStartFrame ≤
        (effTrimEnd fc te - effTrimStart fc ts te) / 2 ∧
      (computeTrimAndFadeRanges fc ts te sf fi fo).fadeInEndFrame ≤
        (computeTrimAndFadeRanges fc ts te sf fi fo).fadeOutStartFrame) ∧
    (fc = 0 → computeTrimAndFadeRanges fc ts te sf fi fo = TrimAndFadeRanges.zero) := by
  by_cases h0 : fc = 0
  · subst h0
    simp [computeTrimAndFadeRanges, TrimAndFadeRanges.zero]
  · have hlt := effTrimStart_lt fc ts te
    have hle := effTrimEnd_le fc te (by omega)
    rw [computeTrimAndFadeRanges_eq fc ts te sf fi fo h0]
    dsimp only
    refine ⟨?_, ?_, ?_, ?_, ?_, ?_,
      fun _ => ⟨?_, ?_, ?_, ?_, ?_, ?_, ?_, ?_, ?_⟩, fun h => absurd h h0⟩
    all_goals first
      | omega
      | (split <;> omega)

/-- Witness for claim C5's degenerate-input conjunct at a concrete input:
`frameCount = 0` yields the all-zero ranges. -/
theorem claim5_trim_fade_invariants_witness :
    computeTrimAndFadeRanges 0 5 7 true 9 11 = TrimAndFadeRanges.zero :=
  (claim5_trim_fade_invariants 0 5 7 true 9 11).2.2.2.2.2.2.2 rfl

/-- Claim C6: `computeTrimAndFadeRanges(100, 10, 90, false, 1000, 1000)`
returns visible range `[10, 90)`, fade-in range `[10, 50)` and fade-out range
`[50, 90)` (each fade capped at half of the 80-frame active region). -/
theorem claim6_trim_fade_example :
    computeTrimAndFadeRanges 100 10 90 false 1000 1000 =
      { visibleStartFrame := 10
        visibleEndFrame := 90
        fadeInStartFrame := 10
        fadeInEndFrame := 50
        fadeOutStartFrame := 50
        fadeOutEndFrame := 90 } := by
  decide

theorem accessGo_bounded (n channels : Nat) (hch : channels ≠ 0)
    (hn : n % channels = 0) :
    ∀ d i, n - i = d → i % channels = 0 → ∀ idx ∈ accessGo n channels i, idx < n := by
  intro d
  induction d using Nat.strong_induction_on with
  | _ d ih =>
    intro i hd hi idx hidx
    rw [accessGo] at hidx
    rw [if_neg hch] at hidx
    by_cases hlt : i < n
    · rw [if_pos hlt] at hidx
      -- i and n are both multiples of channels and i < n, so i + channels ≤ n
      have hstep : i + channels ≤ n := by
        obtain ⟨a, ha⟩ := Nat.dvd_of_mod_eq_zero hi
        obtain ⟨b, hb⟩ := Nat.dvd_of_mod_eq_zero hn
        have hab : a < b := by
          have hmul : channels * a < channels * b := by rw [← ha, ← hb]; exact hlt
          exact Nat.lt_of_mul_lt_mul_left hmul
        have h2 : channels * (a + 1) ≤ channels * b := Nat.mul_le_mul_left channels hab
        have h3 : channels * (a + 1) = channels * a + channels := by ring
        rw [ha, hb]
        omega
      rcases List.mem_append.mp hidx with hmem | hmem
      · obtain ⟨c, hc, rfl⟩ := List.mem_map.mp hmem
        have hcc := List.mem_range.mp hc
        omega
      · exact ih (n - (i + channels)) (by omega) (i + channels) rfl
          (by rw [Nat.add_mod_right]; exact hi) idx hmem
    · rw [if_neg hlt] at hidx
      exact absurd hidx (List.not_mem_nil idx)

/-- Claim C10: for every buffer length that is a multiple of `channels`, with
`channels > 0`, every index `samples[i + c]` read or written by the
compressor's frame loop is strictly less than the buffer length, so the
compressor never accesses the buffer out of bounds. -/
theorem claim10_compressor_access_in_bounds (n channels : Nat)
    (hch : 0 < channels) (hn : n % channels = 0) :
    ∀ idx ∈ compressorAccessedIndices n channels, idx < n :=
  accessGo_bounded n channels (by omega) hn (n - 0) 0 rfl (Nat.zero_mod channels)

/-- Witness for claim C10 at `n = 4`, `channels = 2`: the accessed indices all
lie below 4. -/
theorem claim10_compressor_access_in_bounds_witness :
    0 < 2 ∧ 4 % 2 = 0 ∧ ∀ idx ∈ compressorAccessedIndices 4 2, idx < 4 :=
  ⟨by decide, by decide,
    claim10_compressor_access_in_bounds 4 2 (by decide) (by decide)⟩

theorem minMaxFold_le_acc (samples : List ℚ) (channels ch : Nat) (l : List ℤ)
    (mn mx : ℚ) :
    (minMaxFold samples channels ch l (mn, mx)).1 ≤ mn ∧
      mx ≤ (minMaxFold samples channels ch l (mn, mx)).2 := by
  induction l generalizing mn mx with
  | nil => exact ⟨le_refl mn, le_refl mx⟩
  | cons f fs ih =>
    rw [minMaxFold]
    split
    · have h := ih (min mn (samples.get ⟨_, by assumption⟩))
        (max mx (samples.get ⟨_, by assumption⟩))
      exact ⟨le_trans h.1 (min_le_left _ _), le_trans (le_max_left _ _) h.2⟩
    · exact ih mn mx

theorem minMaxFold_bounds (samples : List ℚ) (channels ch : Nat) (l : List ℤ)
    (mn mx : ℚ) (f : ℤ) (hf : f ∈ l)
    (hidx : castSizeT (f * (channels : ℤ) + (ch : ℤ)) < samples.length) :
    (minMaxFold samples channels ch l (mn, mx)).1 ≤ samples.get ⟨_, hidx⟩ ∧
      samples.get ⟨_, hidx⟩ ≤ (minMaxFold samples channels ch l (mn, mx)).2 := by
  induction l generalizing mn mx with
  | nil => exact absurd hf (List.not_mem_nil f)
  | cons g gs ih =>
    rcases List.mem_cons.mp hf with rfl | hmem
    · rw [minMaxFold]
      rw [dif_pos hidx]
      have h := minMaxFold_le_acc samples channels ch gs
        (min mn (samples.get ⟨_, hidx⟩)) (max mx (samples.get ⟨_, hidx⟩))
      exact ⟨le_trans h.1 (min_le_right _ _), le_trans (le_max_right _ _) h.2⟩
    · rw [minMaxFold]
      split
      · exact ih _ _ hmem
      · exact ih _ _ hmem

theorem mem_frameIndices (s e f : ℤ) (hs : s ≤ f) (hf : f < e) :
    f ∈ frameIndices s e := by
  rw [frameIndices]
  apply List.mem_iff_getElem?.mpr
  refine ⟨(f - s).toNat, ?_⟩
  rw [List.getElem?_map, List.getElem?_range (by omega : (f - s).toNat < (e - s).toNat)]
  show some (s + ((f - s).toNat : ℤ)) = some f
  exact congrArg some (by omega)

theorem computeWaveformCache_entry (samples : List ℚ) (channels : Nat)
    (scroll : ℤ) (spp : ℚ) (width : Nat) (ch x : Nat)
    (hne : samples ≠ []) (hc : ch < channels) (hx : x < width) :
    ((computeWaveformCache samples channels scroll spp width).getD ch []).getD x (0, 0)
      = columnEntry samples channels scroll spp ch x := by
  have hrow : (computeWaveformCache samples channels scroll spp width).getD ch []
      = (List.range width).map (fun x => columnEntry samples channels scroll spp ch x) := by
    unfold computeWaveformCache
    rw [if_neg hne]
    rw [List.getD_eq_getElem?_getD, List.getElem?_map, List.getElem?_range hc]
    rfl
  rw [hrow]
  rw [List.getD_eq_getElem?_getD, List.getElem?_map, List.getElem?_range hx]
  rfl

/-- Claim C2: the waveform decimator's envelope is conservative.  For every
buffer, channel count, scroll offset, samples-per-pixel ≥ 1 and width, for
every column `x` and channel `ch`, every source sample of that channel whose
frame `f` falls in the column's clamped source range `[startFrame, endFrame)`
(and whose interleaved index is in bounds) satisfies
`minVal ≤ sample ≤ maxVal` for that column's cache entry. -/
theorem claim2_decimator_conservative (samples : List ℚ) (channels : Nat)
    (scroll : ℤ) (spp : ℚ) (width : Nat)
    (_hch : 0 < channels) (_hspp : 1 ≤ spp)
    (x ch : Nat) (hx : x < width) (hc : ch < channels) (f : ℤ)
    (hs : (columnBounds scroll spp (clipFrameCount samples.length channels) x).1 ≤ f)
    (hf : f < (columnBounds scroll spp (clipFrameCount samples.length channels) x).2)
    (hidx : castSizeT (f * (channels : ℤ) + (ch : ℤ)) < samples.length) :
    (((computeWaveformCache samples channels scroll spp width).getD ch []).getD x (0, 0)).1
        ≤ samples.get ⟨_, hidx⟩ ∧
      samples.get ⟨_, hidx⟩ ≤
        (((computeWaveformCache samples channels scroll spp width).getD ch []).getD x (0, 0)).2 := by
  have hne : samples ≠ [] := by
    intro h
    rw [h] at hidx
    exact absurd hidx (by simp)
  rw [computeWaveformCache_entry samples channels scroll spp width ch x hne hc hx]
  unfold columnEntry
  exact minMaxFold_bounds samples channels ch _ 0 0 f (mem_frameIndices _ _ f hs hf) hidx

/-- Witness for claim C2 at a concrete input: one-sample mono buffer `[1/2]`,
`scroll = 0`, `spp = 1`, `width = 1`, column 0, channel 0, frame 0. -/
theorem claim2_decimator_conservative_witness :
    (0 : Nat) < 1 ∧ (1 : ℚ) ≤ 1 ∧ (0 : Nat) < 1 ∧
    (columnBounds 0 1 (clipFrameCount 1 1) 0).1 ≤ 0 ∧
    (0 : ℤ) < (columnBounds 0 1 (clipFrameCount 1 1) 0).2 ∧
    ∀ hidx : castSizeT ((0 : ℤ) * (1 : ℤ) + (0 : ℤ)) < ([(1/2 : ℚ)]).length,
      (((computeWaveformCache [(1/2 : ℚ)] 1 0 1 1).getD 0 []).getD 0 (0, 0)).1
          ≤ ([(1/2 : ℚ)]).get ⟨_, hidx⟩ ∧
        ([(1/2 : ℚ)]).get ⟨_, hidx⟩ ≤
          (((computeWaveformCache [(1/2 : ℚ)] 1 0 1 1).getD 0 []).getD 0 (0, 0)).2 :=
  ⟨by decide, le_refl 1, by decide,
    by norm_num [columnBounds, castCInt, stdClamp, clipFrameCount],
    by norm_num [columnBounds, castCInt, stdClamp, clipFrameCount],
    fun hidx => claim2_decimator_conservative [(1/2 : ℚ)] 1 0 1 1
      (by decide) (le_refl 1) 0 0 (by decide) (by decide) 0
      (by norm_num [columnBounds, castCInt, stdClamp, clipFrameCount])
      (by norm_num [columnBounds, castCInt, stdClamp, clipFrameCount]) hidx⟩

theorem curveGain_zero (k : FadeType) : curveGain k 0 = 0 := by
  cases k <;> simp [curveGain]

theorem curveGain_reflect (k : FadeType)
    (hk : k = FadeType.Linear ∨ k = FadeType.SCurve) (t : ℚ) :
    curveGain k (1 - t) = 1 - curveGain k t := by
  rcases hk with rfl | rfl <;> simp only [curveGain] <;> ring

theorem computeFadeGain_eq_in (p La : ℕ) (k : FadeType) (hLa : La ≠ 0)
    (hp : p ≤ La) :
    computeFadeGain p La k true = curveGain k ((p : ℚ) / (La : ℚ)) := by
  have h0 : (0 : ℚ) ≤ (p : ℚ) / (La : ℚ) :=
    div_nonneg (Nat.cast_nonneg p) (Nat.cast_nonneg La)
  have h1 : (p : ℚ) / (La : ℚ) ≤ 1 :=
    div_le_one_of_le (by exact_mod_cast hp) (Nat.cast_nonneg La)
  simp [computeFadeGain, stdClamp, hLa, not_lt.mpr h0, not_lt.mpr h1]

theorem computeFadeGain_eq_out (p La : ℕ) (k : FadeType) (hLa : La ≠ 0)
    (hp : p ≤ La) :
    computeFadeGain p La k false = 1 - curveGain k ((p : ℚ) / (La : ℚ)) := by
  have h0 : (0 : ℚ) ≤ (p : ℚ) / (La : ℚ) :=
    div_nonneg (Nat.cast_nonneg p) (Nat.cast_nonneg La)
  have h1 : (p : ℚ) / (La : ℚ) ≤ 1 :=
    div_le_one_of_le (by exact_mod_cast hp) (Nat.cast_nonneg La)
  simp [computeFadeGain, stdClamp, hLa, not_lt.mpr h0, not_lt.mpr h1]

theorem fadeInGo_getElem (La : ℕ) (k : FadeType) :
    ∀ (l : List ℚ) (j i : ℕ),
      (fadeInGo La k j l)[i]? = (l[i]?).map
        (fun s => if j + i < La then s * computeFadeGain (j + i) La k true else s) := by
  intro l
  induction l with
  | nil => intro j i; simp [fadeInGo]
  | cons s rest ih =>
    intro j i
    cases i with
    | zero => simp [fadeInGo]
    | succ n =>
      rw [fadeInGo]
      simp only [List.getElem?_cons_succ]
      rw [ih (j + 1) n]
      have hadd : j + 1 + n = j + (n + 1) := by omega
      rw [hadd]

theorem fadeOutGo_getElem (La FS : ℕ) (k : FadeType) :
    ∀ (l : List ℚ) (j i : ℕ),
      (fadeOutGo La FS k j l)[i]? = (l[i]?).map
        (fun s => if FS ≤ j + i then s * computeFadeGain (j + i - FS) La k false else s) := by
  intro l
  induction l with
  | nil => intro j i; simp [fadeOutGo]
  | cons s rest ih =>
    intro j i
    cases i with
    | zero => simp [fadeOutGo]
    | succ n =>
      rw [fadeOutGo]
      simp only [List.getElem?_cons_succ]
      rw [ih (j + 1) n]
      have hadd : j + 1 + n = j + (n + 1) := by omega
      rw [hadd]

theorem fadeInGo_length (La : ℕ) (k : FadeType) :
    ∀ (l : List ℚ) (j : ℕ), (fadeInGo La k j l).length = l.length := by
  intro l
  induction l with
  | nil => intro j; rfl
  | cons s rest ih => intro j; simp [fadeInGo, ih]

theorem fadeInOut_replicate_getElem (N L : ℕ) (c : ℚ) (k : FadeType)
    (hN : N ≠ 0) (hL : L ≠ 0) (i : ℕ) (hi : i < N) :
    (applyFadeOut (applyFadeIn (List.replicate N c) L k) L k)[i]? =
      some ((if i < min L N then c * computeFadeGain i (min L N) k true else c) *
        (if N - min L N ≤ i
          then computeFadeGain (i - (N - min L N)) (min L N) k false else 1)) := by
  have hrep : List.replicate N c ≠ [] := by
    simp [List.replicate_eq_nil_iff, hN]
  have hlenrep : (List.replicate N c).length = N := List.length_replicate N c
  rw [applyFadeIn, if_neg (not_or.mpr ⟨hrep, hL⟩)]
  rw [hlenrep]
  have hlenin : (fadeInGo (min L N) k 0 (List.replicate N c)).length = N := by
    rw [fadeInGo_length, hlenrep]
  have hinne : fadeInGo (min L N) k 0 (List.replicate N c) ≠ [] := by
    intro h
    rw [h] at hlenin
    exact hN hlenin.symm
  rw [applyFadeOut, if_neg (not_or.mpr ⟨hinne, hL⟩)]
  simp only [hlenin]
  rw [fadeOutGo_getElem, fadeInGo_getElem]
  rw [List.getElem?_replicate, if_pos hi]
  simp only [Option.map_some', Nat.zero_add]
  congr 1
  split_ifs <;> ring

theorem fadeGain_mirror (N L : ℕ) (k : FadeType)
    (hk : k = FadeType.Linear ∨ k = FadeType.SCurve)
    (hN : N ≠ 0) (hL : L ≠ 0) (i : ℕ) (hiN : i ≤ N) :
    (if i < min L N then computeFadeGain i (min L N) k true else 1)
      = (if N - min L N ≤ N - i
          then computeFadeGain ((N - i) - (N - min L N)) (min L N) k false else 1) := by
  have hLa : min L N ≠ 0 := by omega
  have hLaN : min L N ≤ N := by omega
  have hLaQ : ((min L N : ℕ) : ℚ) ≠ 0 := Nat.cast_ne_zero.mpr hLa
  by_cases hiLa : i < min L N
  · rw [if_pos hiLa, if_pos (by omega)]
    rw [computeFadeGain_eq_in i (min L N) k hLa (le_of_lt hiLa)]
    have harg : (N - i) - (N - min L N) = min L N - i := by omega
    rw [harg]
    rw [computeFadeGain_eq_out (min L N - i) (min L N) k hLa (by omega)]
    have hcast : (((min L N - i : ℕ)) : ℚ) = ((min L N : ℕ) : ℚ) - (i : ℚ) :=
      Nat.cast_sub (le_of_lt hiLa)
    rw [hcast]
    have hdiv : (((min L N : ℕ) : ℚ) - (i : ℚ)) / ((min L N : ℕ) : ℚ)
        = 1 - (i : ℚ) / ((min L N : ℕ) : ℚ) := by
      field_simp
    rw [hdiv, curveGain_reflect k hk]
    ring
  · rw [if_neg hiLa]
    by_cases hEq : i = min L N
    · rw [if_pos (by omega)]
      have harg : (N - i) - (N - min L N) = 0 := by omega
      rw [harg]
      rw [computeFadeGain_eq_out 0 (min L N) k hLa (Nat.zero_le _)]
      rw [Nat.cast_zero, zero_div, curveGain_zero]
      ring
    · rw [if_neg (by omega)]

/-- Counterexample to claim C8 as stated: on the constant buffer of four ones
with linear fades of length 2 on both ends, position `i = 1` lies inside the
fade-in region but `sample[1] = 1/2` differs from `sample[4 - 1 - 1] = sample[2] = 1`
(the fade-in gain ramp starts at 0 while the fade-out gain ramp starts at 1,
so the claimed `N - 1 - i` mirror is off by one). -/
theorem claim8_counterexample :
    ¬ ((applyFadeOut (applyFadeIn (List.replicate 4 (1 : ℚ)) 2 FadeType.Linear)
          2 FadeType.Linear).getD 1 0
        = (applyFadeOut (applyFadeIn (List.replicate 4 (1 : ℚ)) 2 FadeType.Linear)
          2 FadeType.Linear).getD (4 - 1 - 1) 0) := by
  rw [List.getD_eq_getElem?_getD, List.getD_eq_getElem?_getD]
  rw [fadeInOut_replicate_getElem 4 2 1 FadeType.Linear (by decide) (by decide) 1 (by decide),
    fadeInOut_replicate_getElem 4 2 1 FadeType.Linear (by decide) (by decide) (4 - 1 - 1)
      (by decide)]
  norm_num [computeFadeGain, stdClamp, curveGain]

/-- Claim C8 (amended): for every constant-amplitude buffer of length `N` and
every fade length, applying `applyFadeIn` then `applyFadeOut` with the same
length and a Linear or SCurve curve (the curves satisfying
`gain(t) + gain(1-t) = 1`) produces a result symmetric about the buffer
centre with the mirror `sample[i] = sample[N - i]` for `1 ≤ i ≤ N - 1`; the
claimed `N - 1 - i` mirror fails (see the counterexample), and the
Exponential curve admits no such symmetry. -/
theorem claim8_fade_mirror_amended (N L : ℕ) (c : ℚ) (k : FadeType)
    (hk : k = FadeType.Linear ∨ k = FadeType.SCurve)
    (i : ℕ) (h1 : 1 ≤ i) (hi : i ≤ N - 1) :
    (applyFadeOut (applyFadeIn (List.replicate N c) L k) L k).getD i 0
      = (applyFadeOut (applyFadeIn (List.replicate N c) L k) L k).getD (N - i) 0 := by
  by_cases hN : N = 0
  · exact absurd hi (by omega)
  by_cases hL : L = 0
  · subst hL
    rw [applyFadeIn, if_pos (Or.inr rfl), applyFadeOut, if_pos (Or.inr rfl)]
    rw [List.getD_eq_getElem?_getD, List.getD_eq_getElem?_getD]
    rw [List.getElem?_replicate, List.getElem?_replicate]
    rw [if_pos (by omega : i < N), if_pos (by omega : N - i < N)]
  · have hiN : i < N := by omega
    have hNiN : N - i < N := by omega
    rw [List.getD_eq_getElem?_getD, List.getD_eq_getElem?_getD]
    rw [fadeInOut_replicate_getElem N L c k hN hL i hiN,
      fadeInOut_replicate_getElem N L c k hN hL (N - i) hNiN]
    simp only [Option.getD_some]
    have key1 := fadeGain_mirror N L k hk hN hL i (by omega)
    have key2 := fadeGain_mirror N L k hk hN hL (N - i) (by omega)
    have hii : N - (N - i) = i := by omega
    rw [hii] at key2
    have hsplit1 : (if i < min L N then c * computeFadeGain i (min L N) k true else c)
        = c * (if i < min L N then computeFadeGain i (min L N) k true else 1) := by
      split_ifs <;> ring
    have hsplit2 : (if N - i < min L N then c * computeFadeGain (N - i) (min L N) k true else c)
        = c * (if N - i < min L N then computeFadeGain (N - i) (min L N) k true else 1) := by
      split_ifs <;> ring
    rw [hsplit1, hsplit2, key1, key2]
    ring

/-- Witness for the amended claim C8 at `N = 4`, `L = 2`, `c = 1`, Linear
curve, `i = 1`: the symmetric positions are `1` and `4 - 1 = 3`. -/
theorem claim8_fade_mirror_amended_witness :
    (FadeType.Linear = FadeType.Linear ∨ FadeType.Linear = FadeType.SCurve) ∧
    1 ≤ 1 ∧ 1 ≤ 4 - 1 ∧
    (applyFadeOut (applyFadeIn (List.replicate 4 (1 : ℚ)) 2 FadeType.Linear)
        2 FadeType.Linear).getD 1 0
      = (applyFadeOut (applyFadeIn (List.replicate 4 (1 : ℚ)) 2 FadeType.Linear)
        2 FadeType.Linear).getD (4 - 1) 0 :=
  ⟨Or.inl rfl, le_refl 1, by decide,
    claim8_fade_mirror_amended 4 2 1 FadeType.Linear (Or.inl rfl) 1 (le_refl 1) (by decide)⟩

theorem dbToLinear_zero : dbToLinear 0 = 1 := by
  rw [dbToLinear, zero_div, Real.rpow_zero]

theorem dbToLinearE_coe (y : ℝ) : dbToLinearE (y : EReal) = ((dbToLinear y : ℝ) : EReal) := by
  rw [dbToLinearE, if_neg (EReal.coe_ne_bot y), if_neg (EReal.coe_ne_top y), EReal.toReal_coe]

theorem linearToDb_zero : linearToDb 0 = -180 := by
  have hlog : Real.log 10 ≠ 0 := ne_of_gt (Real.log_pos (by norm_num))
  rw [linearToDb, kEpsilon]
  rw [max_eq_right (by positivity : (0 : ℝ) ≤ 1 / 10 ^ 9)]
  have h9 : (1 / 10 ^ 9 : ℝ) = (10 : ℝ) ^ (-9 : ℤ) := by
    rw [zpow_neg]
    norm_num
  rw [h9, Real.logb, Real.log_zpow]
  field_simp
  ring

theorem foldl_max_abs_of_zero (l : List ℝ) (hz : ∀ s ∈ l, s = 0) :
    ∀ a : ℝ, 0 ≤ a → l.foldl (fun peak s => max peak |s|) a = a := by
  induction l with
  | nil => intro a _; rfl
  | cons s rest ih =>
    intro a ha
    have hs : s = 0 := hz s (List.mem_cons_self s rest)
    rw [List.foldl_cons, hs]
    rw [abs_zero, max_eq_left ha]
    exact ih (fun x hx => hz x (List.mem_cons_of_mem s hx)) a ha

theorem foldl_sumsq_of_zero (l : List ℝ) (hz : ∀ s ∈ l, s = 0) :
    ∀ a : ℝ, l.foldl (fun acc s => acc + s * s) a = a := by
  induction l with
  | nil => intro a; rfl
  | cons s rest ih =>
    intro a
    have hs : s = 0 := hz s (List.mem_cons_self s rest)
    rw [List.foldl_cons, hs]
    rw [mul_zero, add_zero]
    exact ih (fun x hx => hz x (List.mem_cons_of_mem s hx)) a

theorem peakLin_of_zero (l : List ℝ) (hz : ∀ s ∈ l, s = 0) : peakLin l = 0 :=
  foldl_max_abs_of_zero l hz 0 (le_refl 0)

theorem sumSq_of_zero (l : List ℝ) (hz : ∀ s ∈ l, s = 0) : sumSq l = 0 :=
  foldl_sumsq_of_zero l hz 0

theorem computePeakDbFS_of_zero (l : List ℝ) (hne : l ≠ []) (hz : ∀ s ∈ l, s = 0) :
    computePeakDbFS l = ((-180 : ℝ) : EReal) := by
  rw [computePeakDbFS, if_neg hne, peakLin_of_zero l hz, linearToDb_zero]

theorem computeRMSDb_of_zero (l : List ℝ) (hne : l ≠ []) (hz : ∀ s ∈ l, s = 0) :
    computeRMSDb l = ((-180 : ℝ) : EReal) := by
  rw [computeRMSDb, if_neg hne, sumSq_of_zero l hz, zero_div, Real.sqrt_zero,
    linearToDb_zero]

theorem normalizePeakGain_coe (samples : List ℝ) (t : ℝ) (hne : samples ≠ []) :
    normalizePeakGain samples t
      = ((dbToLinear (t - linearToDb (peakLin samples)) : ℝ) : EReal) := by
  rw [normalizePeakGain, computePeakDbFS, if_neg hne, ← EReal.coe_sub, dbToLinearE_coe]

theorem normalizeRmsGain_coe (samples : List ℝ) (t : ℝ) (hne : samples ≠ []) :
    normalizeRmsGain samples t
      = ((dbToLinear (t - linearToDb (Real.sqrt (sumSq samples / samples.length))) : ℝ)
          : EReal) := by
  rw [normalizeRmsGain, computeRMSDb, if_neg hne, ← EReal.coe_sub, dbToLinearE_coe]

theorem map_mul_self_of_zero (g : ℝ) (l : List ℝ) (hz : ∀ s ∈ l, s = 0) :
    l.map (fun s => s * g) = l := by
  induction l with
  | nil => rfl
  | cons s rest ih =>
    have hs : s = 0 := hz s (List.mem_cons_self s rest)
    rw [List.map_cons, ih (fun x hx => hz x (List.mem_cons_of_mem s hx))]
    rw [hs, zero_mul]

/-- Claim C1: for every non-empty, exactly-silent buffer (all samples 0.0),
`normalizeToPeak` and `normalizeToRMS` leave the buffer unchanged and the gain
multiplier actually applied is a finite real (never the unbounded `+inf` that
a `-inf` level would produce): the epsilon floor inside `linearToDb` keeps the
measured level finite, so the computed gain is finite, and scaling zeros by a
finite gain returns zeros. -/
theorem claim1_normalize_silent_noop (samples : List ℝ) (t : ℝ)
    (hne : samples ≠ []) (hz : ∀ s ∈ samples, s = 0) :
    normalizeToPeak samples t = samples ∧ normalizeToRMS samples t = samples ∧
    (∃ g : ℝ, normalizePeakGain samples t = (g : EReal)) ∧
    (∃ g : ℝ, normalizeRmsGain samples t = (g : EReal)) := by
  refine ⟨?_, ?_, ⟨_, normalizePeakGain_coe samples t hne⟩,
    ⟨_, normalizeRmsGain_coe samples t hne⟩⟩
  · rw [normalizeToPeak, map_mul_self_of_zero _ samples hz]
  · rw [normalizeToRMS, map_mul_self_of_zero _ samples hz]

/-- Witness for claim C1 at the one-sample silent buffer `[0]`, target 0 dB. -/
theorem claim1_normalize_silent_noop_witness :
    ([(0 : ℝ)] ≠ [] ∧ ∀ s ∈ [(0 : ℝ)], s = 0) ∧
    (normalizeToPeak [(0 : ℝ)] 0 = [(0 : ℝ)] ∧ normalizeToRMS [(0 : ℝ)] 0 = [(0 : ℝ)] ∧
      (∃ g : ℝ, normalizePeakGain [(0 : ℝ)] 0 = (g : EReal)) ∧
      (∃ g : ℝ, normalizeRmsGain [(0 : ℝ)] 0 = (g : EReal))) :=
  ⟨⟨List.cons_ne_nil 0 [], by simp⟩,
    claim1_normalize_silent_noop [(0 : ℝ)] 0 (List.cons_ne_nil 0 []) (by simp)⟩

/-- Counterexample to claim C4 as stated: the silent sentinel is not one
consistent value — the empty buffer yields `-inf` (`⊥`) while the non-empty
all-zero buffer `[0]` yields the finite epsilon-floor value `-180` dB, for
both the peak and the RMS meter. -/
theorem claim4_counterexample :
    computePeakDbFS ([] : List ℝ) ≠ computePeakDbFS [(0 : ℝ)] ∧
    computeRMSDb ([] : List ℝ) ≠ computeRMSDb [(0 : ℝ)] := by
  constructor
  · rw [computePeakDbFS, if_pos rfl,
      computePeakDbFS_of_zero [(0 : ℝ)] (List.cons_ne_nil 0 []) (by simp)]
    exact EReal.bot_ne_coe _
  · rw [computeRMSDb, if_pos rfl,
      computeRMSDb_of_zero [(0 : ℝ)] (List.cons_ne_nil 0 []) (by simp)]
    exact EReal.bot_ne_coe _

/-- Claim C4 (amended): `computePeakDbFS` and `computeRMSDb` return two
different silent sentinels — `-inf` (`⊥`) for the empty buffer, and the finite
epsilon floor `20·log10(1e-9) = -180` dB for every non-empty exactly-silent
buffer. -/
theorem claim4_sentinel_amended (samples : List ℝ) (hne : samples ≠ [])
    (hz : ∀ s ∈ samples, s = 0) :
    computePeakDbFS ([] : List ℝ) = ⊥ ∧ computeRMSDb ([] : List ℝ) = ⊥ ∧
    computePeakDbFS samples = ((-180 : ℝ) : EReal) ∧
    computeRMSDb samples = ((-180 : ℝ) : EReal) :=
  ⟨by rw [computePeakDbFS, if_pos rfl], by rw [computeRMSDb, if_pos rfl],
    computePeakDbFS_of_zero samples hne hz, computeRMSDb_of_zero samples hne hz⟩

/-- Witness for the amended claim C4 at the buffer `[0]`. -/
theorem claim4_sentinel_amended_witness :
    computePeakDbFS ([] : List ℝ) = ⊥ ∧ computeRMSDb ([] : List ℝ) = ⊥ ∧
    computePeakDbFS [(0 : ℝ)] = ((-180 : ℝ) : EReal) ∧
    computeRMSDb [(0 : ℝ)] = ((-180 : ℝ) : EReal) :=
  claim4_sentinel_amended [(0 : ℝ)] (List.cons_ne_nil 0 []) (by simp)

/-- Claim C9: for every buffer and parameters, a non-positive sample rate or
channel count makes `compressor` a silent no-op: the buffer is returned
exactly unchanged. -/
theorem claim9_compressor_guard_noop (samples : List ℝ)
    (tDb ratio aMs rMs mDb : ℝ) (sr ch : ℤ) (h : sr ≤ 0 ∨ ch ≤ 0) :
    compressor samples tDb ratio aMs rMs mDb sr ch = samples := by
  rw [compressor, if_pos h]

/-- Witness for claim C9 at `sampleRate = 0`, `channels = 2` on buffer `[1]`. -/
theorem claim9_compressor_guard_noop_witness :
    ((0 : ℤ) ≤ 0 ∨ (2 : ℤ) ≤ 0) ∧
    compressor [(1 : ℝ)] 0 2 10 100 0 0 2 = [(1 : ℝ)] :=
  ⟨Or.inl (le_refl 0),
    claim9_compressor_guard_noop [(1 : ℝ)] 0 2 10 100 0 0 2 (Or.inl (le_refl 0))⟩

theorem compGainDb_ratio_one (tDb env : ℝ) : compGainDb tDb 1 env = 0 := by
  rw [compGainDb]
  split
  · rw [div_one, sub_self, neg_zero]
  · rfl

theorem chunkFrames_flatten_aux {α : Type} (c : ℕ) (hc : c ≠ 0) :
    ∀ (n : ℕ) (l : List α), l.length = n → (chunkFrames c l).flatten = l := by
  intro n
  induction n using Nat.strong_induction_on with
  | _ n ih =>
    intro l hl
    cases l with
    | nil => simp [chunkFrames]
    | cons s rest =>
      rw [chunkFrames, if_neg hc, List.flatten_cons]
      rw [ih ((s :: rest).drop c).length (by simp [← hl]; omega) _ rfl]
      exact List.take_append_drop c (s :: rest)

theorem chunkFrames_flatten {α : Type} (c : ℕ) (hc : c ≠ 0) (l : List α) :
    (chunkFrames c l).flatten = l :=
  chunkFrames_flatten_aux c hc l.length l rfl

theorem compressorFramesOut_ratio_one (tDb aC rC : ℝ) :
    ∀ (frames : List (List ℝ)) (env : ℝ),
      compressorFramesOut tDb 1 1 aC rC env frames = frames := by
  intro frames
  induction frames with
  | nil => intro env; rfl
  | cons f fs ih =>
    intro env
    rw [compressorFramesOut]
    rw [compGainDb_ratio_one, dbToLinear_zero, ih]
    simp

/-- Claim C7: with `ratio = 1` the compressor computes `gainDb = 0` (gain 1)
at every frame for any threshold/attack/release, and with makeup gain 0 dB
the buffer — and hence its peak level — is left exactly unchanged. -/
theorem claim7_compressor_ratio_one (samples : List ℝ) (tDb aMs rMs : ℝ)
    (sr ch : ℤ) (hsr : 0 < sr) (hch : 0 < ch) :
    (∀ g ∈ compressorGainDbs samples tDb 1 aMs rMs sr ch, g = 0) ∧
    compressor samples tDb 1 aMs rMs 0 sr ch = samples ∧
    computePeakDbFS (compressor samples tDb 1 aMs rMs 0 sr ch)
      = computePeakDbFS samples := by
  have hguard : ¬ (sr ≤ 0 ∨ ch ≤ 0) := by omega
  have hunchanged : compressor samples tDb 1 aMs rMs 0 sr ch = samples := by
    rw [compressor, if_neg hguard, dbToLinear_zero, compressorFramesOut_ratio_one,
      chunkFrames_flatten ch.toNat (by omega)]
  refine ⟨?_, hunchanged, by rw [hunchanged]⟩
  intro g hg
  rw [compressorGainDbs, if_neg hguard] at hg
  obtain ⟨e, _, rfl⟩ := List.mem_map.mp hg
  exact compGainDb_ratio_one tDb e

/-- Witness for claim C7 on the stereo buffer `[1, 1/2]` at 1 Hz. -/
theorem claim7_compressor_ratio_one_witness :
    (0 : ℤ) < 1 ∧ (0 : ℤ) < 2 ∧
    ((∀ g ∈ compressorGainDbs [(1 : ℝ), 1/2] (-6) 1 10 100 1 2, g = 0) ∧
      compressor [(1 : ℝ), 1/2] (-6) 1 10 100 0 1 2 = [(1 : ℝ), 1/2] ∧
      computePeakDbFS (compressor [(1 : ℝ), 1/2] (-6) 1 10 100 0 1 2)
        = computePeakDbFS [(1 : ℝ), 1/2]) :=
  ⟨by decide, by decide,
    claim7_compressor_ratio_one [(1 : ℝ), 1/2] (-6) 10 100 1 2 (by decide) (by decide)⟩

theorem dbToLinear_mono {t1 t2 : ℝ} (h : t1 ≤ t2) : dbToLinear t1 ≤ dbToLinear t2 := by
  rw [dbToLinear, dbToLinear]
  exact (Real.rpow_le_rpow_left_iff (by norm_num : (1 : ℝ) < 10)).mpr (by linarith)

theorem dbToLinear_pos (t : ℝ) : 0 < dbToLinear t :=
  Real.rpow_pos_of_pos (by norm_num) _

theorem le_linearToDb_of_gt {t env : ℝ} (h : dbToLinear t < env) :
    t ≤ linearToDb env := by
  have h10 : (1 : ℝ) < 10 := by norm_num
  have hpos : 0 < dbToLinear t := dbToLinear_pos t
  have hle : dbToLinear t ≤ max env kEpsilon := le_trans h.le (le_max_left _ _)
  have hlog := Real.logb_le_logb_of_le h10 hpos hle
  have hTlog : Real.logb 10 (dbToLinear t) = t / 20 := by
    rw [dbToLinear]
    exact Real.logb_rpow (by norm_num) (by norm_num)
  rw [hTlog] at hlog
  rw [linearToDb]
  linarith

theorem compGainDb_mono (t1 t2 ratio env : ℝ) (hr : 1 ≤ ratio) (hT : t1 ≤ t2) :
    compGainDb t1 ratio env ≤ compGainDb t2 ratio env := by
  have hthr : dbToLinear t1 ≤ dbToLinear t2 := dbToLinear_mono hT
  have hrpos : (0 : ℝ) < ratio := by linarith
  have hfac : 0 ≤ 1 - 1 / ratio := by
    have : 1 / ratio ≤ 1 := by
      rw [div_le_one hrpos]
      exact hr
    linarith
  rw [compGainDb, compGainDb]
  split_ifs with h1 h2 h2
  · -- both thresholds exceeded: larger overshoot means deeper reduction
    have ho : linearToDb env - t2 ≤ linearToDb env - t1 := by linarith
    have hm := mul_le_mul_of_nonneg_right ho hfac
    have e1 : (linearToDb env - t1) - (linearToDb env - t1) / ratio
        = (linearToDb env - t1) * (1 - 1 / ratio) := by ring
    have e2 : (linearToDb env - t2) - (linearToDb env - t2) / ratio
        = (linearToDb env - t2) * (1 - 1 / ratio) := by ring
    rw [e1, e2]
    linarith
  · -- only the lower threshold exceeded: its reduction is nonnegative
    have ho1 : 0 ≤ linearToDb env - t1 := by
      have := le_linearToDb_of_gt h1
      linarith
    have hm := mul_nonneg ho1 hfac
    have e1 : (linearToDb env - t1) - (linearToDb env - t1) / ratio
        = (linearToDb env - t1) * (1 - 1 / ratio) := by ring
    rw [e1]
    linarith
  · -- impossible: env above the higher threshold but not the lower one
    exact absurd h2 (by push_neg at h1 ⊢; linarith)
  · exact le_refl 0

/-- Claim C3: compressor gain reduction is monotone in the threshold.  For
every buffer, ratio ≥ 1, attack, release, positive sample rate and channel
count, and thresholds `T1 ≤ T2`, at every frame the gain reduction computed
with threshold `T2` is no larger than the one computed with `T1` (the
envelope trajectory does not depend on the threshold, and the per-frame
reduction `overDb·(1 - 1/ratio)` is antitone in the threshold). -/
theorem claim3_compressor_threshold_mono (samples : List ℝ)
    (t1 t2 ratio aMs rMs : ℝ) (sr ch : ℤ)
    (hr : 1 ≤ ratio) (hsr : 0 < sr) (hch : 0 < ch) (hT : t1 ≤ t2) (i : ℕ) :
    (compressorGainReductions samples t2 ratio aMs rMs sr ch).getD i 0
      ≤ (compressorGainReductions samples t1 ratio aMs rMs sr ch).getD i 0 := by
  have hguard : ¬ (sr ≤ 0 ∨ ch ≤ 0) := by omega
  rw [compressorGainReductions, compressorGainReductions,
    compressorGainDbs, compressorGainDbs, if_neg hguard, if_neg hguard]
  rw [List.getD_eq_getElem?_getD, List.getD_eq_getElem?_getD]
  rw [List.getElem?_map, List.getElem?_map, List.getElem?_map, List.getElem?_map]
  cases henv : (compressorEnvs (envCoeff aMs sr) (envCoeff rMs sr) 0
      (chunkFrames ch.toNat samples))[i]? with
  | none => simp
  | some e =>
    simp only [Option.map_some', Option.getD_some]
    exact neg_le_neg (compGainDb_mono t1 t2 ratio e hr hT)

/-- Witness for claim C3 on the buffer `[1]`, thresholds `0 ≤ 6`, ratio 2,
frame 0. -/
theorem claim3_compressor_threshold_mono_witness :
    (1 : ℝ) ≤ 2 ∧ (0 : ℤ) < 1 ∧ (0 : ℝ) ≤ 6 ∧
    (compressorGainReductions [(1 : ℝ)] 6 2 10 100 1 1).getD 0 0
      ≤ (compressorGainReductions [(1 : ℝ)] 0 2 10 100 1 1).getD 0 0 :=
  ⟨by norm_num, by decide, by norm_num,
    claim3_compressor_threshold_mono [(1 : ℝ)] 0 6 2 10 100 1 1
      (by norm_num) (by decide) (by decide) (by norm_num) 0⟩

end Woosh
